import Mathlib

/-!
Shallow embedding of the agent-sync extension: the resource loader and its
cache (`urlResourceLoader.ts`), the repository fetcher (`repositorySync.ts`)
and the agent store (`agentManager.ts`), together with proofs of the spec's
claims about them.

Timestamps are modelled as `Nat` milliseconds (`Date.now()`); network I/O is
modelled by passing the outcome of the single fetch a call would perform as an
explicit argument (`Except String String`: error message or response text), and
each loader result records in `didFetch` whether the network path was taken.
-/

set_option autoImplicit false

/-- Dynamic JSON-ish values as they arrive from a deserialized manifest; enough
to express the truthiness and `typeof` checks the validators perform. -/
inductive JVal where
  | str (s : String)
  | num (n : Int)
  | boolean (b : Bool)
  | null
deriving DecidableEq, Repr

/-- Truthiness of an optional field, as JavaScript evaluates `!x`:
`undefined` (absent), `""`, `0`, `false` and `null` are falsy. -/
def jtruthy : Option JVal → Bool
  | none => false
  | some (JVal.str s) => !(s = "")
  | some (JVal.num n) => !(n = 0)
  | some (JVal.boolean b) => b
  | some JVal.null => false

/-- Test `typeof x === 'string'` on an optional field. -/
def isStringJ : Option JVal → Bool
  | some (JVal.str _) => true
  | _ => false

/-- Extract the string payload of a field known to hold a string. -/
def jStr : Option JVal → String
  | some (JVal.str s) => s
  | _ => ""

/-- Resource entry as it appears in a manifest, before validation. -/
structure RawResource where
  type : Option JVal
  url : Option JVal
deriving DecidableEq, Repr

/-- Agent entry as it appears in a manifest, before validation.  Template
entries are strings in every manifest of interest, so `templates` is kept as
an optional string list. -/
structure RawAgent where
  id : Option JVal
  name : Option JVal
  prompt : Option JVal
  resources : Option (List RawResource)
  templates : Option (List String)
deriving DecidableEq, Repr

/-- Validation used by the repository fetcher (`RepositorySync.validateAgent`):
`id`, `name` and `prompt` must be truthy strings.  Resources are not examined
at this layer. -/
def RepositorySync.validateAgent (a : RawAgent) : Bool :=
  if !jtruthy a.id || !jtruthy a.name || !jtruthy a.prompt then false
  else if !isStringJ a.id || !isStringJ a.name || !isStringJ a.prompt then false
  else true

/-- Resource validation in the agent store (`AgentManager.validateResource`):
`type` and `url` truthy strings, and `type` one of the three enumerated kinds. -/
def AgentManager.validateResource (r : RawResource) : Bool :=
  if !jtruthy r.type || !jtruthy r.url then false
  else if !isStringJ r.type || !isStringJ r.url then false
  else if !(["url", "file", "api"].contains (jStr r.type)) then false
  else true

/-- Validation used by the agent store (`AgentManager.validateAgent`): the
fetcher's checks plus per-resource validation when a resource list is present. -/
def AgentManager.validateAgent (a : RawAgent) : Bool :=
  if !jtruthy a.id || !jtruthy a.name || !jtruthy a.prompt then false
  else if !isStringJ a.id || !isStringJ a.name || !isStringJ a.prompt then false
  else match a.resources with
    | none => true
    | some rs => rs.all AgentManager.validateResource

/-- Association list standing for a JavaScript `Map`: `get` returns the value
at the first (and, for a `Map`, only) matching key. -/
def mapGet {β : Type} : List (String × β) → String → Option β
  | [], _ => none
  | p :: rest, k => if p.1 = k then some p.2 else mapGet rest k

/-- Association-list update standing for `Map.set`: replace the value in place
when the key is present, append a fresh entry otherwise. -/
def mapSet {β : Type} : List (String × β) → String → β → List (String × β)
  | [], k, v => [(k, v)]
  | p :: rest, k, v => if p.1 = k then (k, v) :: rest else p :: mapSet rest k v

/-- Resource kinds accepted by the loader (`AgentResource.type`). -/
inductive ResourceType where
  | url
  | file
  | api
deriving DecidableEq, Repr

/-- Resource declaration attached to an agent (`AgentResource` in `types.ts`).
Headers are an ordered list of key/value pairs, mirroring the JSON object. -/
structure AgentResource where
  type : ResourceType
  url : String
  name : Option String := none
  description : Option String := none
  headers : Option (List (String × String)) := none
  cacheDuration : Option Nat := none
deriving DecidableEq, Repr

/-- Result of a load (`ResourceContent` in `types.ts`); `loadedAt` is a
millisecond timestamp. -/
structure ResourceContent where
  url : String
  content : String
  loadedAt : Nat
  error : Option String := none
deriving DecidableEq, Repr

/-- Entry of the loader's in-memory cache: content plus fetch timestamp. -/
structure CacheEntry where
  content : String
  timestamp : Nat
deriving DecidableEq, Repr

/-- State of `UrlResourceLoader.cache`. -/
abbrev Cache : Type := List (String × CacheEntry)

/-- Default cache lifetime: one hour in milliseconds. -/
def defaultCacheDuration : Nat := 3600000

/-- Serialization `JSON.stringify(headers)` used in the cache key; absent
headers serialize to the empty string. -/
def serializeHeaders : Option (List (String × String)) → String
  | none => ""
  | some hs =>
      "\x7b" ++ String.intercalate "," (hs.map (fun p => "\"" ++ p.1 ++ "\":\"" ++ p.2 ++ "\"")) ++ "\x7d"

/-- Cache key of a resource (`UrlResourceLoader.getCacheKey`):
the URL and the serialized headers. -/
def getCacheKey (r : AgentResource) : String :=
  r.url ++ "::" ++ serializeHeaders r.headers

/-- Effective lifetime `resource.cacheDuration || this.defaultCacheDuration`:
JavaScript `||` takes the default when the field is absent or `0` (falsy). -/
def cacheDurationOf (r : AgentResource) : Nat :=
  match r.cacheDuration with
  | none => defaultCacheDuration
  | some d => if d = 0 then defaultCacheDuration else d

/-- Normalization of the response body (`UrlResourceLoader.processContent`).
The loader requests `responseType: 'text'`, so the body is a string and the
`typeof data === 'string'` branch returns it unchanged. -/
def processContent (data : String) (_ty : ResourceType) : String :=
  data

/-- Outcome of one `loadResource` call: the produced `ResourceContent`, the
cache afterwards, and whether the network path was taken. -/
structure LoadOutcome where
  result : ResourceContent
  cache : Cache
  didFetch : Bool
deriving DecidableEq, Repr

/-- Embedding of `UrlResourceLoader.loadResource`.  `now` is `Date.now()` and
`fetchResult` is the outcome of the axios GET the call would perform
(`Except.error msg` covers timeout, non-2xx and network errors, whose message
axios surfaces as `error.message`).  A fresh cache entry short-circuits before
any fetch; otherwise the fetch path runs: on success the cache is updated and
fresh content returned, on failure any cache entry — even an expired one — is
returned with the error attached, and with no entry the content is empty. -/
def loadResource (cache : Cache) (r : AgentResource) (now : Nat)
    (fetchResult : Except String String) : LoadOutcome :=
  let cacheKey := getCacheKey r
  let cacheDuration := cacheDurationOf r
  let fetchPath : LoadOutcome :=
    match fetchResult with
    | Except.ok data =>
        let content := processContent data r.type
        { result := { url := r.url, content := content, loadedAt := now, error := none }
          cache := mapSet cache cacheKey { content := content, timestamp := now }
          didFetch := true }
    | Except.error msg =>
        match mapGet cache cacheKey with
        | some cached =>
            { result := { url := r.url, content := cached.content,
                          loadedAt := cached.timestamp, error := some msg }
              cache := cache
              didFetch := true }
        | none =>
            { result := { url := r.url, content := "", loadedAt := now, error := some msg }
              cache := cache
              didFetch := true }
  match mapGet cache cacheKey with
  | some cached =>
      if now - cached.timestamp < cacheDuration then
        { result := { url := r.url, content := cached.content,
                      loadedAt := cached.timestamp, error := none }
          cache := cache
          didFetch := false }
      else fetchPath
  | none => fetchPath

/-- Embedding of `UrlResourceLoader.clearExpiredCache`: the sweep deletes every
entry whose age exceeds the fixed `defaultCacheDuration`; it takes no
caller-supplied age bound. -/
def clearExpiredCache (cache : Cache) (now : Nat) : Cache :=
  cache.filter (fun p => !(now - p.2.timestamp > defaultCacheDuration))

/-- Deduplication step of `preloadResources`: insert a resource keyed by URL
only when the URL is not yet present (`if (!uniqueResources.has(url)) set`). -/
def addUnique (m : List (String × AgentResource)) (r : AgentResource) :
    List (String × AgentResource) :=
  if mapGet m r.url = none then mapSet m r.url r else m

/-- Unique-URL set of `preloadResources`, in `Map` insertion order
(first occurrence of each URL wins). -/
def uniqueByUrl (rs : List AgentResource) : List AgentResource :=
  (rs.foldl addUnique []).map Prod.snd

/-- Batch size of the preload loop. -/
def batchSize : Nat := 5

/-- Slicing of the unique resource array into consecutive batches of
`batchSize`, as the `for (let i = 0; ...; i += batchSize)` loop does. -/
def toBatches (rs : List AgentResource) : List (List AgentResource) :=
  if rs = [] then []
  else rs.take batchSize :: toBatches (rs.drop batchSize)
termination_by rs.length
decreasing_by
  cases rs with
  | nil => simp_all
  | cons a l => simp [batchSize, Nat.lt_succ_iff]

/-- Embedding of `UrlResourceLoader.preloadResources`, reduced to the data it
determines: the list of resources actually loaded (and hence cached), in load
order — the flattened owners' lists, deduplicated by URL, issued batch by
batch. -/
def preloadResources (owners : List (List AgentResource)) : List AgentResource :=
  (toBatches (uniqueByUrl owners.flatten)).flatten

/-- Character class `[\w-]` of the owner/repository captures. -/
def isWordDashChar (c : Char) : Bool :=
  c.isAlphanum || c = '_' || c = '-'

/-- Attempt, at the current position, the pattern
`<lit>[seps]([\w-]+)\/([\w-]+)` used by the GitHub/GitLab/Bitbucket branches:
the literal host fragment, a separator, then the two greedy captures. -/
def matchOwnerRepoAt (lit : List Char) (seps : List Char) (s : List Char) :
    Option (String × String) :=
  if lit.isPrefixOf s then
    match s.drop lit.length with
    | c :: rest =>
        if seps.contains c then
          let owner := rest.takeWhile isWordDashChar
          let rest2 := rest.dropWhile isWordDashChar
          if owner = [] then none
          else
            match rest2 with
            | '/' :: rest3 =>
                let repo := rest3.takeWhile isWordDashChar
                if repo = [] then none else some (String.mk owner, String.mk repo)
            | _ => none
        else none
    | [] => none
  else none

/-- Scan of `String.match` for the owner/repository pattern: try every start
position left to right, as the regex engine does. -/
def findOwnerRepo (lit : List Char) (seps : List Char) : List Char → Option (String × String)
  | [] => none
  | c :: rest =>
      match matchOwnerRepoAt lit seps (c :: rest) with
      | some p => some p
      | none => findOwnerRepo lit seps rest

/-- Attempt, at the current position, the Azure DevOps pattern
`dev\.azure\.com\/([^/]+)\/([^/]+)\/_git\/([^/]+)`. -/
def matchAzureAt (s : List Char) : Option (String × String × String) :=
  if ("dev.azure.com/".toList).isPrefixOf s then
    let t := s.drop 14
    let org := t.takeWhile (fun c => !(c = '/'))
    let t1 := t.dropWhile (fun c => !(c = '/'))
    if org = [] then none
    else
      match t1 with
      | '/' :: t2 =>
          let project := t2.takeWhile (fun c => !(c = '/'))
          let t3 := t2.dropWhile (fun c => !(c = '/'))
          if project = [] then none
          else if ("/_git/".toList).isPrefixOf t3 then
            let repo := (t3.drop 6).takeWhile (fun c => !(c = '/'))
            if repo = [] then none
            else some (String.mk org, String.mk project, String.mk repo)
          else none
      | _ => none
  else none

/-- Scan for the Azure DevOps pattern. -/
def findAzure : List Char → Option (String × String × String)
  | [] => none
  | c :: rest =>
      match matchAzureAt (c :: rest) with
      | some p => some p
      | none => findAzure rest

/-- Removal of a trailing version-control suffix: `repoUrl.replace(/\.git$/, '')`
drops a final `.git` and leaves any other URL unchanged. -/
def stripGitSuffix (url : String) : String :=
  if (".git".toList).isSuffixOf url.toList then
    String.mk (url.toList.take (url.toList.length - 4))
  else url

/-- Embedding of `RepositorySync.buildRawUrl`: strip a trailing `.git`, try the
four known hosting conventions in order, and fall back to the generic
`<repo>/raw/<branch>/<path>` shape. -/
def buildRawUrl (repoUrl branch filePath : String) : String :=
  let cleanUrl := stripGitSuffix repoUrl
  match findOwnerRepo "github.com".toList ['/', ':'] cleanUrl.toList with
  | some (owner, repo) =>
      "https://raw.githubusercontent.com/" ++ owner ++ "/" ++ repo ++ "/" ++ branch ++ "/" ++ filePath
  | none =>
    match findOwnerRepo "gitlab.com".toList ['/', ':'] cleanUrl.toList with
    | some (owner, repo) =>
        "https://gitlab.com/" ++ owner ++ "/" ++ repo ++ "/-/raw/" ++ branch ++ "/" ++ filePath
    | none =>
      match findAzure cleanUrl.toList with
      | some (org, project, repo) =>
          "https://dev.azure.com/" ++ org ++ "/" ++ project ++ "/_apis/git/repositories/" ++
            repo ++ "/items?path=/" ++ filePath ++ "&version=GB" ++ branch ++ "&api-version=7.0"
      | none =>
        match findOwnerRepo "bitbucket.org".toList ['/', ':'] cleanUrl.toList with
        | some (owner, repo) =>
            "https://bitbucket.org/" ++ owner ++ "/" ++ repo ++ "/raw/" ++ branch ++ "/" ++ filePath
        | none => cleanUrl ++ "/raw/" ++ branch ++ "/" ++ filePath

/-- Test `agent.prompt && agent.prompt.startsWith('file:')`; the prefix test is
expressed on the character list. -/
def promptIsFileRef (a : RawAgent) : Bool :=
  jtruthy a.prompt && ("file:".toList).isPrefixOf (jStr a.prompt).toList

/-- Resolution of a single template entry in `processAgentFiles`: a `file:`
entry is fetched from the repository's `templates/` directory and falls back
to its literal text on failure; any other entry passes through unchanged.
`tfetch` maps a repository-relative path to its content, `none` on failure. -/
def resolveTemplate (tfetch : String → Option String) (t : String) : String :=
  if ("file:".toList).isPrefixOf t.toList then
    match tfetch ("templates/" ++ t.drop 5) with
    | some body => body
    | none => t
  else t

/-- Embedding of `RepositorySync.processAgentFiles`.  Per agent: a `file:`
prompt is fetched from `agents/`; if that fetch throws, the per-agent catch
pushes the agent unchanged (template processing is skipped).  Otherwise each
template entry is resolved individually via `resolveTemplate`, whose own
try/catch makes a single failure degrade only that entry.  Every agent is
pushed to the output. -/
def processAgentFiles (tfetch : String → Option String) (agents : List RawAgent) :
    List RawAgent :=
  agents.map (fun a =>
    if promptIsFileRef a then
      match tfetch ("agents/" ++ (jStr a.prompt).drop 5) with
      | some body =>
          { a with prompt := some (JVal.str body)
                   templates := a.templates.map (List.map (resolveTemplate tfetch)) }
      | none => a
    else
      { a with templates := a.templates.map (List.map (resolveTemplate tfetch)) })

/-- Deserialized manifest (`AgentConfig` in `types.ts`), keeping the fields
`fetchAgents` inspects; `agents` is optional so the format check
`!response.data.agents` can be expressed. -/
structure AgentConfig where
  version : Option JVal
  agents : Option (List RawAgent)
deriving Repr

/-- Embedding of `RepositorySync.fetchAgents`.  `repoConfigured` is whether a
repository URL is set (the code returns `[]` without fetching otherwise);
`manifestResult` is the outcome of the manifest GET; `cachedAgents` is the
persisted set in `globalState` (defaulting to `[]`).  The try block turns a
missing `agents` field into a format error; the catch block substitutes the
cached agents when nonempty and otherwise rethrows. -/
def fetchAgents (repoConfigured : Bool) (manifestResult : Except String AgentConfig)
    (tfetch : String → Option String) (cachedAgents : List RawAgent) :
    Except String (List RawAgent) :=
  if !repoConfigured then Except.ok [] else
  let attempt : Except String (List RawAgent) :=
    match manifestResult with
    | Except.error msg => Except.error msg
    | Except.ok cfg =>
        match cfg.agents with
        | none => Except.error "Invalid agent configuration format"
        | some agents =>
            let validAgents := agents.filter RepositorySync.validateAgent
            Except.ok (processAgentFiles tfetch validAgents)
  match attempt with
  | Except.ok res => Except.ok res
  | Except.error msg =>
      if cachedAgents.isEmpty then Except.error msg else Except.ok cachedAgents

/-- State of the agent store: the held id-keyed map (`AgentManager.agents`, in
`Map` insertion order) and the persisted list (`globalState 'agents'`). -/
structure AgentStore where
  agents : List (String × RawAgent)
  saved : List RawAgent
deriving DecidableEq, Repr

/-- Embedding of `AgentManager.saveAgents`: persist the held values. -/
def AgentManager.saveAgents (st : AgentStore) : AgentStore :=
  { st with saved := st.agents.map Prod.snd }

/-- Embedding of `AgentManager.updateAgents`: clear the held map, insert each
incoming agent that passes the store's own validation keyed by its id, then
persist. -/
def AgentManager.updateAgents (st : AgentStore) (newAgents : List RawAgent) : AgentStore :=
  let cleared : AgentStore := { st with agents := [] }
  let updated := newAgents.foldl
    (fun acc a =>
      if AgentManager.validateAgent a then
        { acc with agents := mapSet acc.agents (jStr a.id) a }
      else acc)
    cleared
  AgentManager.saveAgents updated

/-- Manifest entry whose resource has the unrecognized type `ftp`; its core
fields are valid strings. -/
def ftpAgent : RawAgent :=
  { id := some (JVal.str "a"), name := some (JVal.str "b"), prompt := some (JVal.str "c")
    resources := some [{ type := some (JVal.str "ftp"), url := some (JVal.str "x") }]
    templates := none }

/-- Simple valid agent used in concrete checks. -/
def docsAgent : RawAgent :=
  { id := some (JVal.str "docs"), name := some (JVal.str "Docs")
    prompt := some (JVal.str "Write docs."), resources := none, templates := none }

/-- Second valid agent with a distinct id. -/
def okrAgent : RawAgent :=
  { id := some (JVal.str "okr"), name := some (JVal.str "OKR")
    prompt := some (JVal.str "Track OKRs."), resources := none, templates := none }

/-- Invalid manifest entry: the prompt field is absent. -/
def noPromptAgent : RawAgent :=
  { id := some (JVal.str "x"), name := some (JVal.str "X"), prompt := none
    resources := none, templates := none }

/-- Agent declaring one failing and one resolvable template reference plus a
literal entry. -/
def templAgent : RawAgent :=
  { id := some (JVal.str "tpl"), name := some (JVal.str "Tpl"), prompt := some (JVal.str "p")
    resources := none, templates := some ["file:missing.md", "file:good.md", "plain"] }

/-- Repository-file oracle that serves only `templates/good.md`. -/
def goodFetch : String → Option String :=
  fun s => if s = "templates/good.md" then some "GOOD" else none

/-- Resource on URL `http://x` with no headers and no explicit lifetime. -/
def xResource : AgentResource := { type := ResourceType.url, url := "http://x" }

/-- Resource declaring an explicit zero cache lifetime. -/
def zeroDurResource : AgentResource :=
  { type := ResourceType.url, url := "http://z", cacheDuration := some 0 }

/-- First owner's declaration of the shared URL. -/
def sharedResA : AgentResource :=
  { type := ResourceType.url, url := "http://shared", cacheDuration := some 60000 }

/-- Second owner's declaration of the same URL with different metadata. -/
def sharedResB : AgentResource :=
  { type := ResourceType.url, url := "http://shared", cacheDuration := some 5000 }

theorem mapGet_mapSet_self {β : Type} (m : List (String × β)) (k : String) (v : β) :
    mapGet (mapSet m k v) k = some v := by
  induction m with
  | nil => simp [mapSet, mapGet]
  | cons p rest ih =>
      by_cases h : p.1 = k
      · simp [mapSet, mapGet, h]
      · simp [mapSet, mapGet, h, ih]

theorem getCacheKey_congr (r r2 : AgentResource) (hurl : r2.url = r.url)
    (hheaders : r2.headers = r.headers) : getCacheKey r2 = getCacheKey r := by
  simp [getCacheKey, hurl, hheaders]

/-- C1: when the fetch in `loadResource` fails, the result carries the error
message; with any cache entry under the resource's key — even one past its
lifetime — the content equals that entry's content, and with no entry the
content is empty.  The embedding is a total function, so no exception reaches
the caller in either case. -/
theorem loadResource_failure_fallback (cache : Cache) (r : AgentResource) (now : Nat)
    (msg : String)
    (hstale : ∀ e, mapGet cache (getCacheKey r) = some e →
      ¬ (now - e.timestamp < cacheDurationOf r)) :
    ((loadResource cache r now (Except.error msg)).result.error = some msg) ∧
    (∀ e, mapGet cache (getCacheKey r) = some e →
      (loadResource cache r now (Except.error msg)).result.content = e.content) ∧
    (mapGet cache (getCacheKey r) = none →
      (loadResource cache r now (Except.error msg)).result.content = "") := by
  cases h : mapGet cache (getCacheKey r) with
  | none => simp [loadResource, h]
  | some e =>
      have hne := hstale e h
      simp [loadResource, h, hne]

/-- Witness: a failing fetch over an expired entry (age 9999999 ms) returns the
stale content with the error attached. -/
theorem loadResource_failure_fallback_witness :
    ((loadResource [("http://x::", { content := "old", timestamp := 0 })] xResource 9999999
        (Except.error "boom")).result.error = some "boom") ∧
    (∀ e, mapGet ([("http://x::", { content := "old", timestamp := 0 })] : Cache)
        (getCacheKey xResource) = some e →
      (loadResource [("http://x::", { content := "old", timestamp := 0 })] xResource 9999999
        (Except.error "boom")).result.content = e.content) ∧
    (mapGet ([("http://x::", { content := "old", timestamp := 0 })] : Cache)
        (getCacheKey xResource) = none →
      (loadResource [("http://x::", { content := "old", timestamp := 0 })] xResource 9999999
        (Except.error "boom")).result.content = "") :=
  loadResource_failure_fallback _ xResource 9999999 "boom" (by
    intro e he
    have hkey : getCacheKey xResource = "http://x::" := by decide
    rw [hkey] at he
    have he2 : ({ content := "old", timestamp := 0 } : CacheEntry) = e := by
      simpa [mapGet] using he
    subst he2
    decide)

/-- C2: a cache entry younger than the resource's lifetime is returned as-is —
same content, no error, no network fetch, cache unchanged — and consequently
two loads of the same `(url, headers)` identity, the second within the
lifetime of the first successful fetch, perform exactly one network call
between them, the second returning the first's content. -/
theorem loadResource_cache_hit (cache : Cache) (r r2 : AgentResource)
    (now1 now2 : Nat) (body : String) (fr2 : Except String String)
    (hmiss : mapGet cache (getCacheKey r) = none)
    (hurl : r2.url = r.url) (hheaders : r2.headers = r.headers)
    (hfresh : now2 - now1 < cacheDurationOf r2) :
    (∀ (c : Cache) (e : CacheEntry) (fr : Except String String) (t : Nat),
        mapGet c (getCacheKey r2) = some e → t - e.timestamp < cacheDurationOf r2 →
        loadResource c r2 t fr =
          { result := { url := r2.url, content := e.content, loadedAt := e.timestamp,
                        error := none }
            cache := c, didFetch := false }) ∧
    (loadResource cache r now1 (Except.ok body)).didFetch = true ∧
    (loadResource (loadResource cache r now1 (Except.ok body)).cache r2 now2 fr2).didFetch
      = false ∧
    (loadResource (loadResource cache r now1 (Except.ok body)).cache r2 now2 fr2).result.content
      = body ∧
    (loadResource (loadResource cache r now1 (Except.ok body)).cache r2 now2 fr2).result.error
      = none := by
  have hit : ∀ (c : Cache) (e : CacheEntry) (fr : Except String String) (t : Nat),
      mapGet c (getCacheKey r2) = some e → t - e.timestamp < cacheDurationOf r2 →
      loadResource c r2 t fr =
        { result := { url := r2.url, content := e.content, loadedAt := e.timestamp,
                      error := none }
          cache := c, didFetch := false } := by
    intro c e fr t hc hf
    simp [loadResource, hc, hf]
  have hkey : getCacheKey r2 = getCacheKey r := getCacheKey_congr r r2 hurl hheaders
  have ho1 : loadResource cache r now1 (Except.ok body) =
      { result := { url := r.url, content := body, loadedAt := now1, error := none }
        cache := mapSet cache (getCacheKey r) { content := body, timestamp := now1 }
        didFetch := true } := by
    simp [loadResource, hmiss, processContent]
  have hlook : mapGet (loadResource cache r now1 (Except.ok body)).cache (getCacheKey r2)
      = some { content := body, timestamp := now1 } := by
    rw [ho1, hkey]
    exact mapGet_mapSet_self cache (getCacheKey r) _
  have ho2 := hit (loadResource cache r now1 (Except.ok body)).cache
      { content := body, timestamp := now1 } fr2 now2 hlook hfresh
  refine ⟨hit, by rw [ho1], by rw [ho2], by rw [ho2], by rw [ho2]⟩

/-- Witness: loading `http://x` at time 0 (success, body `B`) and again at time
100 performs one fetch, the second load hitting the cache. -/
theorem loadResource_cache_hit_witness :
    (∀ (c : Cache) (e : CacheEntry) (fr : Except String String) (t : Nat),
        mapGet c (getCacheKey xResource) = some e →
        t - e.timestamp < cacheDurationOf xResource →
        loadResource c xResource t fr =
          { result := { url := xResource.url, content := e.content, loadedAt := e.timestamp,
                        error := none }
            cache := c, didFetch := false }) ∧
    (loadResource [] xResource 0 (Except.ok "B")).didFetch = true ∧
    (loadResource (loadResource [] xResource 0 (Except.ok "B")).cache xResource 100
        (Except.error "down")).didFetch = false ∧
    (loadResource (loadResource [] xResource 0 (Except.ok "B")).cache xResource 100
        (Except.error "down")).result.content = "B" ∧
    (loadResource (loadResource [] xResource 0 (Except.ok "B")).cache xResource 100
        (Except.error "down")).result.error = none :=
  loadResource_cache_hit [] xResource xResource 0 100 "B" (Except.error "down")
    rfl rfl rfl (by decide)

/-- C10: an explicit `cacheDuration` of `0` is falsy in the JavaScript `||`, so
the load uses the one-hour default lifetime, and an entry younger than the
default is served from the cache with no network call. -/
theorem cacheDuration_zero_uses_default (r : AgentResource) (cache : Cache) (e : CacheEntry)
    (now : Nat) (fr : Except String String)
    (hzero : r.cacheDuration = some 0)
    (hhit : mapGet cache (getCacheKey r) = some e)
    (hfresh : now - e.timestamp < defaultCacheDuration) :
    cacheDurationOf r = defaultCacheDuration ∧
    loadResource cache r now fr =
      { result := { url := r.url, content := e.content, loadedAt := e.timestamp, error := none }
        cache := cache, didFetch := false } := by
  have hdur : cacheDurationOf r = defaultCacheDuration := by simp [cacheDurationOf, hzero]
  refine ⟨hdur, ?_⟩
  rw [← hdur] at hfresh
  simp [loadResource, hhit, hfresh]

/-- Witness: a resource with `cacheDuration = 0` and a 499990 ms old entry is
served from the cache. -/
theorem cacheDuration_zero_uses_default_witness :
    cacheDurationOf zeroDurResource = defaultCacheDuration ∧
    loadResource [("http://z::", { content := "zc", timestamp := 10 })] zeroDurResource 500000
        (Except.error "e") =
      { result := { url := zeroDurResource.url, content := "zc", loadedAt := 10, error := none }
        cache := [("http://z::", { content := "zc", timestamp := 10 })], didFetch := false } :=
  cacheDuration_zero_uses_default zeroDurResource
    [("http://z::", { content := "zc", timestamp := 10 })]
    { content := "zc", timestamp := 10 } 500000 (Except.error "e") rfl (by decide) (by decide)

/-- C9 counterexample: `clearExpiredCache` accepts no caller-supplied maximum
age; an entry of age 2000 ms — older than a caller-intended bound of 1000 ms —
survives the sweep, because only the fixed default lifetime is compared. -/
theorem clearExpiredCache_ignores_caller_maxAge :
    clearExpiredCache [("k", { content := "v", timestamp := 0 })] 2000 =
      [("k", { content := "v", timestamp := 0 })] ∧ 2000 - 0 > 1000 :=
  ⟨by decide, by decide⟩

/-- C9 as amended: the sweep is not parameterized; it removes exactly the
entries whose age `now - fetchedAt` strictly exceeds the fixed default
lifetime, keeping every entry at or under that age. -/
theorem clearExpiredCache_removes_exactly_default_expired
    (cache : Cache) (now : Nat) (k : String) (e : CacheEntry) :
    (k, e) ∈ clearExpiredCache cache now ↔
      ((k, e) ∈ cache ∧ ¬ (now - e.timestamp > defaultCacheDuration)) := by
  simp [clearExpiredCache, List.mem_filter]

theorem truthyString_iff (x : Option JVal) :
    (jtruthy x = true ∧ isStringJ x = true) ↔ ∃ s, x = some (JVal.str s) ∧ s ≠ "" := by
  cases x with
  | none => simp [jtruthy, isStringJ]
  | some v => cases v <;> simp [jtruthy, isStringJ]

theorem repoValidate_eq_core (a : RawAgent) :
    RepositorySync.validateAgent a =
      ((jtruthy a.id && isStringJ a.id) && (jtruthy a.name && isStringJ a.name) &&
       (jtruthy a.prompt && isStringJ a.prompt)) := by
  unfold RepositorySync.validateAgent
  cases h1 : jtruthy a.id <;> cases h2 : jtruthy a.name <;> cases h3 : jtruthy a.prompt <;>
    cases h4 : isStringJ a.id <;> cases h5 : isStringJ a.name <;> cases h6 : isStringJ a.prompt <;>
      simp

/-- C3 counterexample: the manifest entry `{id:"a", name:"b", prompt:"c",
resources:[{type:"ftp", url:"x"}]}` passes the repository fetcher's validation
and is accepted into the sync result, although the agent store's rules reject
it — refuting that the fetcher validates under the store's rules. -/
theorem repoSync_accepts_unrecognized_resource_type :
    fetchAgents true (Except.ok { version := some (JVal.str "1"), agents := some [ftpAgent] })
      (fun _ => none) [] = Except.ok [ftpAgent] ∧
    AgentManager.validateAgent ftpAgent = false := by
  constructor
  · rfl
  · decide

/-- C3 as amended: the repository fetcher validates each manifest entry only
for `id`, `name` and `prompt` being present, non-empty strings (dropping
entries failing that); declared resources never influence the fetcher's
verdict, so an entry with an unrecognized resource type passes the fetcher and
is dropped only by the agent store's own validation. -/
theorem repoValidate_checks_only_core_fields :
    (∀ (a : RawAgent) (rs : Option (List RawResource)),
        RepositorySync.validateAgent { a with resources := rs } =
          RepositorySync.validateAgent a) ∧
    (∀ a : RawAgent, RepositorySync.validateAgent a = true ↔
        ((∃ s, a.id = some (JVal.str s) ∧ s ≠ "") ∧
         (∃ s, a.name = some (JVal.str s) ∧ s ≠ "") ∧
         (∃ s, a.prompt = some (JVal.str s) ∧ s ≠ ""))) ∧
    RepositorySync.validateAgent ftpAgent = true ∧
    AgentManager.validateAgent ftpAgent = false := by
  refine ⟨?_, ?_, by decide, by decide⟩
  · intro a rs
    rw [repoValidate_eq_core, repoValidate_eq_core]
  · intro a
    rw [repoValidate_eq_core]
    simp only [Bool.and_eq_true]
    rw [show ((jtruthy a.id = true ∧ isStringJ a.id = true) ∧
          (jtruthy a.name = true ∧ isStringJ a.name = true)) ∧
          (jtruthy a.prompt = true ∧ isStringJ a.prompt = true) ↔
        (jtruthy a.id = true ∧ isStringJ a.id = true) ∧
          (jtruthy a.name = true ∧ isStringJ a.name = true) ∧
          (jtruthy a.prompt = true ∧ isStringJ a.prompt = true) from by tauto]
    rw [truthyString_iff, truthyString_iff, truthyString_iff]

/-- C4: `buildRawUrl` strips the trailing `.git` before host matching and
resolves the GitHub example to its `raw.githubusercontent.com` address, while
the unrecognized host resolves via the generic `<repo>/raw/<branch>/<path>`
fallback. -/
theorem buildRawUrl_github_and_fallback :
    stripGitSuffix "https://github.com/acme/widgets.git" = "https://github.com/acme/widgets" ∧
    buildRawUrl "https://github.com/acme/widgets.git" "main" "agents.json" =
      "https://raw.githubusercontent.com/acme/widgets/main/agents.json" ∧
    buildRawUrl "https://git.example.com/acme/widgets" "main" "agents.json" =
      "https://git.example.com/acme/widgets/raw/main/agents.json" :=
  ⟨by decide, by decide, by decide⟩

/-- C5 counterexample: when the manifest fetch fails and no persisted agent
set exists, `fetchAgents` rethrows the error to its caller — it does not
return a zero-agent result. -/
theorem fetchAgents_raises_without_cache :
    fetchAgents true (Except.error "network down") (fun _ => none) [] =
      Except.error "network down" ∧
    fetchAgents true (Except.error "network down") (fun _ => none) [] ≠
      Except.ok ([] : List RawAgent) := by
  constructor
  · rfl
  · intro h
    exact Except.noConfusion h

/-- C5 as amended: on manifest-fetch failure `fetchAgents` substitutes the
last persisted agent set when one exists, returning it instead of raising;
with no persisted set it raises the error to the sync orchestrator instead of
reporting zero agents itself. -/
theorem fetchAgents_manifest_failure (msg : String) (tfetch : String → Option String)
    (cached : List RawAgent) (hne : cached ≠ []) :
    fetchAgents true (Except.error msg) tfetch cached = Except.ok cached ∧
    fetchAgents true (Except.error msg) tfetch [] = Except.error msg := by
  constructor
  · have : cached.isEmpty = false := by
      cases cached with
      | nil => exact absurd rfl hne
      | cons a l => rfl
    simp [fetchAgents, this]
  · rfl

/-- Witness: a failing manifest fetch with a persisted set returns that set,
and with an empty persisted set propagates the error. -/
theorem fetchAgents_manifest_failure_witness :
    fetchAgents true (Except.error "boom") goodFetch [docsAgent] = Except.ok [docsAgent] ∧
    fetchAgents true (Except.error "boom") goodFetch [] = Except.error "boom" :=
  fetchAgents_manifest_failure "boom" goodFetch [docsAgent] (by decide)

/-- C7: for an agent whose templates contain a `file:` entry whose fetch
fails, `processAgentFiles` keeps every agent (same output length, and the
processed agent is in the result), resolves the template list entrywise, maps
the failing entry to its original literal text, and maps every entry whose
fetch succeeds to the fetched body. -/
theorem processAgentFiles_template_fallback
    (tfetch : String → Option String) (agents : List RawAgent) (a : RawAgent)
    (ts : List String) (i : Nat)
    (ha : a ∈ agents) (hts : a.templates = some ts) (hi : i < ts.length)
    (hfile : ("file:".toList).isPrefixOf (ts.get ⟨i, hi⟩).toList = true)
    (hfail : tfetch ("templates/" ++ (ts.get ⟨i, hi⟩).drop 5) = none)
    (hprompt : promptIsFileRef a = false) :
    (processAgentFiles tfetch agents).length = agents.length ∧
    { a with templates := some (ts.map (resolveTemplate tfetch)) } ∈
        processAgentFiles tfetch agents ∧
    resolveTemplate tfetch (ts.get ⟨i, hi⟩) = ts.get ⟨i, hi⟩ ∧
    (∀ (j : Nat) (hj : j < ts.length) (body : String),
        ("file:".toList).isPrefixOf (ts.get ⟨j, hj⟩).toList = true →
        tfetch ("templates/" ++ (ts.get ⟨j, hj⟩).drop 5) = some body →
        resolveTemplate tfetch (ts.get ⟨j, hj⟩) = body) := by
  refine ⟨?_, ?_, ?_, ?_⟩
  · simp [processAgentFiles]
  · have hmem := List.mem_map_of_mem (fun x : RawAgent =>
      if promptIsFileRef x then
        match tfetch ("agents/" ++ (jStr x.prompt).drop 5) with
        | some body =>
            { x with prompt := some (JVal.str body)
                     templates := x.templates.map (List.map (resolveTemplate tfetch)) }
        | none => x
      else
        { x with templates := x.templates.map (List.map (resolveTemplate tfetch)) }) ha
    rw [processAgentFiles]
    simpa [hprompt, hts] using hmem
  · unfold resolveTemplate
    rw [if_pos hfile, hfail]
  · intro j hj body h1 h2
    unfold resolveTemplate
    rw [if_pos h1, h2]

/-- Witness: with templates `[file:missing.md, file:good.md, plain]` and an
oracle serving only `good.md`, the failing entry stays literal while the others
resolve. -/
theorem processAgentFiles_template_fallback_witness :
    (processAgentFiles goodFetch [templAgent]).length = [templAgent].length ∧
    { templAgent with
        templates := some (["file:missing.md", "file:good.md", "plain"].map
          (resolveTemplate goodFetch)) } ∈ processAgentFiles goodFetch [templAgent] ∧
    resolveTemplate goodFetch "file:missing.md" = "file:missing.md" ∧
    (∀ (j : Nat) (hj : j < (["file:missing.md", "file:good.md", "plain"] : List String).length)
        (body : String),
        ("file:".toList).isPrefixOf
          ((["file:missing.md", "file:good.md", "plain"] : List String).get ⟨j, hj⟩).toList
          = true →
        goodFetch ("templates/" ++
          ((["file:missing.md", "file:good.md", "plain"] : List String).get ⟨j, hj⟩).drop 5)
          = some body →
        resolveTemplate goodFetch
          ((["file:missing.md", "file:good.md", "plain"] : List String).get ⟨j, hj⟩) = body) :=
  processAgentFiles_template_fallback goodFetch [templAgent] templAgent
    ["file:missing.md", "file:good.md", "plain"] 0 (by decide) rfl (by decide)
    (by decide) (by decide) (by decide)

theorem mapSet_append_of_not_mem {β : Type} (m : List (String × β)) (k : String) (v : β)
    (h : ∀ p ∈ m, p.1 ≠ k) : mapSet m k v = m ++ [(k, v)] := by
  induction m with
  | nil => simp [mapSet]
  | cons p rest ih =>
      have hp : p.1 ≠ k := h p (by simp)
      rw [mapSet]
      rw [if_neg hp]
      rw [ih (fun q hq => h q (by simp [hq]))]
      simp

theorem foldl_store_split (l : List RawAgent) : ∀ c : AgentStore,
    l.foldl (fun acc a =>
      if AgentManager.validateAgent a then
        { acc with agents := mapSet acc.agents (jStr a.id) a }
      else acc) c =
    { agents := l.foldl (fun m a =>
        if AgentManager.validateAgent a then mapSet m (jStr a.id) a else m) c.agents
      saved := c.saved } := by
  induction l with
  | nil => intro c; rfl
  | cons a rest ih =>
      intro c
      simp only [List.foldl_cons]
      rw [ih]
      by_cases h : AgentManager.validateAgent a = true
      · simp [h]
      · simp [h]

theorem updateAgents_eq (st : AgentStore) (l : List RawAgent) :
    AgentManager.updateAgents st l =
      { agents := l.foldl (fun m a =>
          if AgentManager.validateAgent a then mapSet m (jStr a.id) a else m) []
        saved := (l.foldl (fun m a =>
          if AgentManager.validateAgent a then mapSet m (jStr a.id) a else m) []).map
            Prod.snd } := by
  simp only [AgentManager.updateAgents, AgentManager.saveAgents]
  rw [foldl_store_split]

theorem foldl_store_fresh (l : List RawAgent) : ∀ m : List (String × RawAgent),
    (∀ p ∈ m, ∀ a ∈ l.filter AgentManager.validateAgent, jStr a.id ≠ p.1) →
    ((l.filter AgentManager.validateAgent).map (fun a => jStr a.id)).Nodup →
    l.foldl (fun m a =>
        if AgentManager.validateAgent a then mapSet m (jStr a.id) a else m) m =
      m ++ (l.filter AgentManager.validateAgent).map (fun a => (jStr a.id, a)) := by
  induction l with
  | nil => intro m _ _; simp
  | cons a rest ih =>
      intro m hdisj hnd
      by_cases hv : AgentManager.validateAgent a = true
      · have hafilter : a ∈ (a :: rest).filter AgentManager.validateAgent := by
          simp [List.filter_cons, hv]
        have hset : mapSet m (jStr a.id) a = m ++ [(jStr a.id, a)] :=
          mapSet_append_of_not_mem m (jStr a.id) a
            (fun p hp => (hdisj p hp a hafilter).symm)
        have hfc : (a :: rest).filter AgentManager.validateAgent =
            a :: rest.filter AgentManager.validateAgent := by
          simp [List.filter_cons, hv]
        rw [hfc] at hnd
        simp only [List.map_cons, List.nodup_cons] at hnd
        obtain ⟨hnotmem, hnd'⟩ := hnd
        have hdisj' : ∀ p ∈ m ++ [(jStr a.id, a)],
            ∀ b ∈ rest.filter AgentManager.validateAgent, jStr b.id ≠ p.1 := by
          intro p hp b hb
          rcases List.mem_append.mp hp with hpm | hpa
          · exact hdisj p hpm b (by rw [hfc]; exact List.mem_cons_of_mem a hb)
          · have hpe : p = (jStr a.id, a) := by simpa using hpa
            subst hpe
            intro hcontra
            have hmm : jStr b.id ∈
                (rest.filter AgentManager.validateAgent).map (fun x => jStr x.id) :=
              List.mem_map_of_mem (fun x => jStr x.id) hb
            rw [hcontra] at hmm
            exact hnotmem hmm
        simp only [List.foldl_cons]
        rw [if_pos hv, hset, ih (m ++ [(jStr a.id, a)]) hdisj' hnd', hfc]
        simp [List.append_assoc]
      · have hfc : (a :: rest).filter AgentManager.validateAgent =
            rest.filter AgentManager.validateAgent := by
          simp [List.filter_cons, hv]
        rw [hfc] at hdisj hnd
        simp only [List.foldl_cons]
        rw [if_neg hv, ih m hdisj hnd, hfc]

/-- C6: `updateAgents` wholesale-replaces the store — the result is
independent of the previous state (no previously held agent survives), the
held values are exactly the incoming agents that pass the store's own
validation (when their ids are distinct, in order), and the persisted list
equals the held values after the replacement. -/
theorem updateAgents_replaces_and_persists (st st2 : AgentStore) (newAgents : List RawAgent)
    (hnd : ((newAgents.filter AgentManager.validateAgent).map (fun a => jStr a.id)).Nodup) :
    AgentManager.updateAgents st newAgents = AgentManager.updateAgents st2 newAgents ∧
    (AgentManager.updateAgents st newAgents).agents.map Prod.snd =
      newAgents.filter AgentManager.validateAgent ∧
    (AgentManager.updateAgents st newAgents).saved =
      (AgentManager.updateAgents st newAgents).agents.map Prod.snd := by
  have hfold := foldl_store_fresh newAgents [] (by simp) hnd
  refine ⟨by rw [updateAgents_eq, updateAgents_eq], ?_, ?_⟩
  · rw [updateAgents_eq]
    simp only [hfold, List.nil_append, List.map_map]
    have hcomp : (Prod.snd ∘ fun a : RawAgent => (jStr a.id, a)) = id := rfl
    rw [hcomp, List.map_id]
  · rw [updateAgents_eq]

/-- Witness: replacing a store holding a stale entry with two valid agents and
one invalid one yields exactly the two valid agents, also persisted. -/
theorem updateAgents_replaces_and_persists_witness :
    AgentManager.updateAgents { agents := [("old", noPromptAgent)], saved := [noPromptAgent] }
        [docsAgent, noPromptAgent, okrAgent] =
      AgentManager.updateAgents { agents := [], saved := [] }
        [docsAgent, noPromptAgent, okrAgent] ∧
    (AgentManager.updateAgents { agents := [("old", noPromptAgent)], saved := [noPromptAgent] }
        [docsAgent, noPromptAgent, okrAgent]).agents.map Prod.snd =
      [docsAgent, noPromptAgent, okrAgent].filter AgentManager.validateAgent ∧
    (AgentManager.updateAgents { agents := [("old", noPromptAgent)], saved := [noPromptAgent] }
        [docsAgent, noPromptAgent, okrAgent]).saved =
      (AgentManager.updateAgents { agents := [("old", noPromptAgent)], saved := [noPromptAgent] }
        [docsAgent, noPromptAgent, okrAgent]).agents.map Prod.snd :=
  updateAgents_replaces_and_persists
    { agents := [("old", noPromptAgent)], saved := [noPromptAgent] }
    { agents := [], saved := [] } [docsAgent, noPromptAgent, okrAgent] (by decide)

theorem mapGet_eq_none_iff {β : Type} (m : List (String × β)) (k : String) :
    mapGet m k = none ↔ ∀ p ∈ m, p.1 ≠ k := by
  induction m with
  | nil => simp [mapGet]
  | cons p rest ih =>
      by_cases h : p.1 = k
      · simp [mapGet, h]
      · simp [mapGet, h, ih]

theorem mapGet_mapSet_ne {β : Type} (m : List (String × β)) (k u : String) (v : β)
    (h : k ≠ u) : mapGet (mapSet m k v) u = mapGet m u := by
  induction m with
  | nil => simp [mapSet, mapGet, h]
  | cons p rest ih =>
      by_cases hp : p.1 = k
      · simp [mapSet, mapGet, hp, h, ih]
      · simp [mapSet, mapGet, hp, h, ih]

theorem mem_addUnique_of_mem (m : List (String × AgentResource)) (r : AgentResource)
    (p : String × AgentResource) (hp : p ∈ m) : p ∈ addUnique m r := by
  unfold addUnique
  by_cases h : mapGet m r.url = none
  · rw [if_pos h]
    rw [mapSet_append_of_not_mem m r.url r ((mapGet_eq_none_iff m r.url).mp h)]
    exact List.mem_append_left _ hp
  · rw [if_neg h]
    exact hp

theorem mem_foldl_addUnique_of_mem (l : List AgentResource) :
    ∀ (m : List (String × AgentResource)) (p : String × AgentResource),
    p ∈ m → p ∈ l.foldl addUnique m := by
  induction l with
  | nil => intro m p hp; simpa using hp
  | cons r rest ih =>
      intro m p hp
      exact ih (addUnique m r) p (mem_addUnique_of_mem m r p hp)

theorem mapGet_addUnique_ne (m : List (String × AgentResource)) (r : AgentResource)
    (u : String) (h : r.url ≠ u) : mapGet (addUnique m r) u = mapGet m u := by
  unfold addUnique
  by_cases hm : mapGet m r.url = none
  · rw [if_pos hm]
    exact mapGet_mapSet_ne m r.url u r h
  · rw [if_neg hm]

theorem foldl_addUnique_urlkey (l : List AgentResource) :
    ∀ m : List (String × AgentResource), (∀ p ∈ m, p.1 = p.2.url) →
    ∀ p ∈ l.foldl addUnique m, p.1 = p.2.url := by
  induction l with
  | nil => intro m hm p hp; exact hm p (by simpa using hp)
  | cons r rest ih =>
      intro m hm p hp
      refine ih (addUnique m r) ?_ p hp
      intro q hq
      unfold addUnique at hq
      by_cases h : mapGet m r.url = none
      · rw [if_pos h, mapSet_append_of_not_mem m r.url r
          ((mapGet_eq_none_iff m r.url).mp h)] at hq
        rcases List.mem_append.mp hq with hq1 | hq2
        · exact hm q hq1
        · have : q = (r.url, r) := by simpa using hq2
          rw [this]
      · rw [if_neg h] at hq
        exact hm q hq

theorem foldl_addUnique_keys_nodup (l : List AgentResource) :
    ∀ m : List (String × AgentResource), (m.map Prod.fst).Nodup →
    ((l.foldl addUnique m).map Prod.fst).Nodup := by
  induction l with
  | nil => intro m hm; simpa using hm
  | cons r rest ih =>
      intro m hm
      refine ih (addUnique m r) ?_
      unfold addUnique
      by_cases h : mapGet m r.url = none
      · rw [if_pos h, mapSet_append_of_not_mem m r.url r
          ((mapGet_eq_none_iff m r.url).mp h)]
        rw [List.map_append, List.nodup_append]
        refine ⟨hm, by simp, ?_⟩
        intro u hu
        have := (mapGet_eq_none_iff m r.url).mp h
        simp only [List.mem_map] at hu
        obtain ⟨p, hp, hpu⟩ := hu
        simp only [List.map_cons, List.map_nil, List.mem_singleton]
        intro heq
        exact this p hp (by rw [hpu, heq])
      · rw [if_neg h]
        exact hm

theorem foldl_addUnique_first_mem (pre : List AgentResource) :
    ∀ (m : List (String × AgentResource)) (r : AgentResource) (post : List AgentResource),
    mapGet m r.url = none → (∀ p ∈ pre, p.url ≠ r.url) →
    (r.url, r) ∈ (pre ++ r :: post).foldl addUnique m := by
  induction pre with
  | nil =>
      intro m r post hm _
      simp only [List.nil_append, List.foldl_cons]
      refine mem_foldl_addUnique_of_mem post (addUnique m r) (r.url, r) ?_
      unfold addUnique
      rw [if_pos hm, mapSet_append_of_not_mem m r.url r ((mapGet_eq_none_iff m r.url).mp hm)]
      exact List.mem_append_right _ (by simp)
  | cons q rest ih =>
      intro m r post hm hpre
      simp only [List.cons_append, List.foldl_cons]
      refine ih (addUnique m q) r post ?_ (fun p hp => hpre p (List.mem_cons_of_mem q hp))
      rw [mapGet_addUnique_ne m q r.url (hpre q (by simp))]
      exact hm

theorem flatten_toBatches (rs : List AgentResource) : (toBatches rs).flatten = rs := by
  rw [toBatches]
  by_cases h : rs = []
  · simp [h]
  · rw [if_neg h]
    simp only [List.flatten_cons]
    rw [flatten_toBatches (rs.drop batchSize)]
    exact List.take_append_drop _ rs
termination_by rs.length
decreasing_by
  have hp : 0 < rs.length := List.length_pos.mpr h
  simp only [List.length_drop, batchSize]
  omega

/-- C8: `preloadResources` loads, batching aside, exactly the flattened
owners' resource lists deduplicated by URL with first-occurrence-wins: the
first-seen declaration of a URL is in the loaded (and hence cached) set, and a
later declaration of the same URL with different metadata is not. -/
theorem preloadResources_first_wins (owners : List (List AgentResource))
    (pre mid post : List AgentResource) (r1 r2 : AgentResource)
    (hflat : owners.flatten = pre ++ r1 :: (mid ++ r2 :: post))
    (hpre : ∀ p ∈ pre, p.url ≠ r1.url)
    (hurl : r2.url = r1.url) (hne : r2 ≠ r1) :
    preloadResources owners = uniqueByUrl owners.flatten ∧
    r1 ∈ preloadResources owners ∧
    r2 ∉ preloadResources owners := by
  have hbatch : preloadResources owners = uniqueByUrl owners.flatten := by
    unfold preloadResources
    exact flatten_toBatches _
  have hmem1 : (r1.url, r1) ∈ (owners.flatten).foldl addUnique [] := by
    rw [hflat]
    exact foldl_addUnique_first_mem pre [] r1 (mid ++ r2 :: post) rfl hpre
  have hr1 : r1 ∈ uniqueByUrl owners.flatten := by
    unfold uniqueByUrl
    exact List.mem_map_of_mem Prod.snd hmem1
  have hr2 : r2 ∉ uniqueByUrl owners.flatten := by
    intro hr2mem
    unfold uniqueByUrl at hr2mem
    rcases List.mem_map.mp hr2mem with ⟨p, hp, hps⟩
    have hkey : p.1 = p.2.url :=
      foldl_addUnique_urlkey owners.flatten [] (by simp) p hp
    have hpv : p = (r1.url, r2) := by
      have : p.2 = r2 := hps
      have h1 : p.1 = r1.url := by rw [hkey, this, hurl]
      cases p
      simp_all
    rw [hpv] at hp
    have hnd : (((owners.flatten).foldl addUnique []).map Prod.fst).Nodup :=
      foldl_addUnique_keys_nodup owners.flatten [] (by simp)
    have := List.inj_on_of_nodup_map hnd hmem1 hp (by rfl)
    have : r1 = r2 := congrArg Prod.snd this
    exact hne this.symm
  exact ⟨hbatch, by rw [hbatch]; exact hr1, by rw [hbatch]; exact hr2⟩

/-- Witness: owner A declares `http://shared` with lifetime 60000 and owner B
with 5000; A's declaration is loaded, B's is ignored. -/
theorem preloadResources_first_wins_witness :
    preloadResources [[sharedResA], [sharedResB]] =
      uniqueByUrl ([[sharedResA], [sharedResB]] : List (List AgentResource)).flatten ∧
    sharedResA ∈ preloadResources [[sharedResA], [sharedResB]] ∧
    sharedResB ∉ preloadResources [[sharedResA], [sharedResB]] :=
  preloadResources_first_wins [[sharedResA], [sharedResB]] [] [] [] sharedResA sharedResB
    rfl (by simp) rfl (by decide)
